import Mathlib

/-!
Verification of the in-memory login rate limiter of the user-management
service (`app/utils/rate_limiter.py`).

The limiter keeps, per opaque string key, a dictionary from timestamp to
attempt count (`_attempts`) and a dictionary from key to block-expiry time
(`_blocked_until`).  We embed it shallowly:

* Time is the discrete microsecond axis of Python `datetime` values,
  modelled as `Int` microseconds since the epoch (`usPerSec`, `usPerMin`
  are the conversion constants; the configured `window_seconds` and
  `block_seconds` are whole seconds exactly as in the constructor).
* Python dictionaries are association lists with the exact `dict`
  semantics used by the code: updating an existing key keeps its position,
  a new key is appended, deletion removes the entry.
* Timestamp keys of the inner dictionary are either `datetime` objects
  (`TS.dt`) or strings (`TS.str`), mirroring the heterogeneous store the
  code defends against.
* The string branch executes `int(float(ts))` and `datetime.fromtimestamp`;
  `pyIntFloat` models `int(float(s))` on the literal forms
  `[sign] digits [. digits]`, `inf`, `infinity` and `nan`
  (case-insensitive): other decimal shapes (exponents, underscores,
  surrounding whitespace) are classified as `valueError` and are not used
  by any theorem below.  `float("inf")` succeeds and `int(inf)` raises
  `OverflowError`, which the code's `except (ValueError, TypeError)` does
  NOT catch, so that outcome is a distinct constructor; `int(float("nan"))`
  raises `ValueError`, which is caught.  `datetime.fromtimestamp` is
  modelled as total (all epoch values appearing in theorems are in the
  platform range).
* A Python call that may raise an uncaught exception is a value of
  `Except Unit`.
-/

/-- Microseconds per second: `datetime` stores integral microseconds. -/
def usPerSec : Int := 1000000

/-- Microseconds per minute. -/
def usPerMin : Int := 60000000

/-- `n` whole seconds on the microsecond time axis. -/
def sec (n : Int) : Int := usPerSec * n

/-- `now.replace(second=0, microsecond=0)`: truncation of a `datetime`
to its minute, i.e. flooring on the microsecond axis. -/
def minuteFloor (t : Int) : Int := usPerMin * (Int.fdiv t usPerMin)

/-- `datetime.fromtimestamp(n)` for a whole number of epoch seconds. -/
def fromTs (n : Int) : Int := usPerSec * n

/-- Association-list lookup, modelling `d[k]` / `k in d`. -/
def lookupD {α β : Type} [DecidableEq α] : List (α × β) → α → Option β
  | [], _ => none
  | (a, b) :: r, k => if a = k then some b else lookupD r k

/-- Association-list update `d[k] = v`: an existing key keeps its
position, a new key is appended (CPython dict insertion order). -/
def insertD {α β : Type} [DecidableEq α] : List (α × β) → α → β → List (α × β)
  | [], k, v => [(k, v)]
  | (a, b) :: r, k, v => if a = k then (k, v) :: r else (a, b) :: insertD r k v

/-- Association-list deletion `del d[k]`. -/
def eraseD {α β : Type} [DecidableEq α] (l : List (α × β)) (k : α) : List (α × β) :=
  l.filter (fun p => decide (p.1 ≠ k))

/-- `sum(d.values())`. -/
def sumVals {α : Type} (l : List (α × Int)) : Int :=
  l.foldr (fun p acc => p.2 + acc) 0

/-- Outcome of the Python expression `int(float(s))` for a string `s`:
a value, a `ValueError`/`TypeError` (caught by the code's `except`
clause), or an `OverflowError` (NOT caught by it). -/
inductive PyConv : Type
  | ok (n : Int)
  | valueError
  | overflowError
deriving DecidableEq

/-- Numeric value of a digit string (most significant first). -/
def digitsVal (cs : List Char) : Int :=
  cs.foldl (fun acc c => 10 * acc + ((c.toNat : Int) - 48)) 0

/-- `int(float(s))` on an unsigned literal body; see the module comment
for the modelled subset.  `int(±inf)` raises `OverflowError`,
`int(nan)` raises `ValueError`, `int` truncates toward zero (so the
digits before the decimal point give the result). -/
def pyIntFloatCore (cs : List Char) : PyConv :=
  let low := cs.map Char.toLower
  if low = "inf".toList ∨ low = "infinity".toList then .overflowError
  else if low = "nan".toList then .valueError
  else
    let ip := cs.takeWhile Char.isDigit
    let rest := cs.dropWhile Char.isDigit
    match rest with
    | [] => if ip.isEmpty then .valueError else .ok (digitsVal ip)
    | '.' :: fp =>
      if fp.all Char.isDigit && !(ip.isEmpty && fp.isEmpty) then .ok (digitsVal ip)
      else .valueError
    | _ => .valueError

/-- Negation of a conversion outcome (for a leading minus sign). -/
def pyNeg : PyConv → PyConv
  | .ok n => .ok (-n)
  | e => e

/-- `int(float(s))` with an optional leading sign. -/
def pyIntFloat (s : String) : PyConv :=
  match s.toList with
  | '+' :: rest => pyIntFloatCore rest
  | '-' :: rest => pyNeg (pyIntFloatCore rest)
  | cs => pyIntFloatCore cs

/-- A key of the per-key attempts dictionary: a `datetime` object or a
string (the heterogeneous store `_cleanup` defends against). -/
inductive TS : Type
  | dt (t : Int)
  | str (s : String)
deriving DecidableEq

/-- Constructor configuration of `RateLimiter`
(`max_attempts`, `window_seconds`, `block_seconds`). -/
structure RLConfig where
  max_attempts : Int := 5
  window_seconds : Int := 300
  block_seconds : Int := 3600
deriving DecidableEq

/-- Mutable state of a `RateLimiter` instance: `_attempts` maps a key to
a timestamp-to-count dictionary, `_blocked_until` maps a key to the
block-expiry time. -/
structure RLState where
  attempts : List (String × List (TS × Int))
  blocked_until : List (String × Int)
deriving DecidableEq

/-- The per-entry loop of `_cleanup`: keep a `datetime` entry iff its
timestamp is `>= cutoff`; for a string entry run `int(float(ts))` —
on success compare `fromtimestamp` of the value with the cutoff, on a
caught `ValueError`/`TypeError` keep the entry ("better safe than
sorry"), on `OverflowError` the exception propagates. -/
def cleanupInner (cutoff : Int) : List (TS × Int) → Except Unit (List (TS × Int))
  | [] => .ok []
  | (ts, c) :: rest =>
    match ts with
    | .dt t =>
      (cleanupInner cutoff rest).map (fun r => if cutoff ≤ t then (TS.dt t, c) :: r else r)
    | .str s =>
      match pyIntFloat s with
      | .ok n =>
        (cleanupInner cutoff rest).map
          (fun r => if cutoff ≤ fromTs n then (TS.str s, c) :: r else r)
      | .valueError => (cleanupInner cutoff rest).map (fun r => (TS.str s, c) :: r)
      | .overflowError => .error ()

/-- `RateLimiter._cleanup(key, now)` acting on the `_attempts` map:
absent key returns immediately; otherwise the key's dictionary is
rebuilt with only the retained entries and removed entirely if that
leaves it empty. -/
def _cleanup (cfg : RLConfig) (key : String) (now : Int)
    (att : List (String × List (TS × Int))) : Except Unit (List (String × List (TS × Int))) :=
  match lookupD att key with
  | none => .ok att
  | some inner =>
    (cleanupInner (now - usPerSec * cfg.window_seconds) inner).map (fun cleaned =>
      if cleaned.isEmpty then eraseD att key else insertD att key cleaned)

/-- The per-entry loop of `_count_recent_attempts`: a `datetime` entry
counts iff `>= cutoff`; a string entry that parses counts iff its
`fromtimestamp` is `>= cutoff`; a caught conversion failure substitutes
`now` for the timestamp (counting the entry as recent whenever
`now >= cutoff`); `OverflowError` propagates. -/
def countInner (cutoff now : Int) : List (TS × Int) → Except Unit Int
  | [] => .ok 0
  | (ts, c) :: rest =>
    match ts with
    | .dt t =>
      (countInner cutoff now rest).map (fun r => (if cutoff ≤ t then c else 0) + r)
    | .str s =>
      match pyIntFloat s with
      | .ok n =>
        (countInner cutoff now rest).map (fun r => (if cutoff ≤ fromTs n then c else 0) + r)
      | .valueError =>
        (countInner cutoff now rest).map (fun r => (if cutoff ≤ now then c else 0) + r)
      | .overflowError => .error ()

/-- `RateLimiter._count_recent_attempts(key, now)`. -/
def _count_recent_attempts (cfg : RLConfig) (key : String) (now : Int)
    (att : List (String × List (TS × Int))) : Except Unit Int :=
  match lookupD att key with
  | none => .ok 0
  | some inner => countInner (now - usPerSec * cfg.window_seconds) now inner

/-- Lines 71–87 of `is_rate_limited`: early `(False, None)` when the key
has no attempts, otherwise clean up, count, and either install a block
`now + block_seconds` or report not limited. -/
def checkAttempts (cfg : RLConfig) (key : String) (now : Int) (s : RLState) :
    Except Unit ((Bool × Option Int) × RLState) :=
  if (lookupD s.attempts key).isNone then .ok ((false, none), s)
  else do
    let att ← _cleanup cfg key now s.attempts
    let cnt ← _count_recent_attempts cfg key now att
    if cfg.max_attempts ≤ cnt then
      .ok ((true, some (now + usPerSec * cfg.block_seconds)),
        ⟨att, insertD s.blocked_until key (now + usPerSec * cfg.block_seconds)⟩)
    else
      .ok ((false, none), ⟨att, s.blocked_until⟩)

/-- `RateLimiter.is_rate_limited(key)` at current time `now`: an active
block (`now < blocked_until[key]`) is returned as-is; an expired block
is removed together with the key's whole attempt history; then the
attempt-counting path runs. -/
def is_rate_limited (cfg : RLConfig) (key : String) (now : Int) (s : RLState) :
    Except Unit ((Bool × Option Int) × RLState) :=
  match lookupD s.blocked_until key with
  | some bu =>
    if now < bu then .ok ((true, some bu), s)
    else checkAttempts cfg key now ⟨eraseD s.attempts key, eraseD s.blocked_until key⟩
  | none => checkAttempts cfg key now s

/-- `d.get(k, 0) + 1` bucket increment used by `record_attempt`:
bump the count of the minute bucket `m`. -/
def bumpBucket (l : List (TS × Int)) (m : Int) : List (TS × Int) :=
  insertD l (TS.dt m) ((lookupD l (TS.dt m)).getD 0 + 1)

/-- `RateLimiter.record_attempt(key)` at current time `now`: ensure the
key's dictionary exists, clean up (re-creating the dictionary if the
cleanup emptied and removed it), increment the current minute's bucket,
and block the key (`blocked_until[key] = now + block_seconds`) iff the
sum of all bucket counts has reached `max_attempts`.  The existing
`_blocked_until` entry is never read. -/
def record_attempt (cfg : RLConfig) (key : String) (now : Int) (s : RLState) :
    Except Unit (Bool × RLState) := do
  let att0 := if (lookupD s.attempts key).isNone then insertD s.attempts key [] else s.attempts
  let att1 ← _cleanup cfg key now att0
  let att2 := if (lookupD att1 key).isNone then insertD att1 key [] else att1
  let inner := (lookupD att2 key).getD []
  let inner' := bumpBucket inner (minuteFloor now)
  let att3 := insertD att2 key inner'
  if cfg.max_attempts ≤ sumVals inner' then
    .ok (true, ⟨att3, insertD s.blocked_until key (now + usPerSec * cfg.block_seconds)⟩)
  else
    .ok (false, ⟨att3, s.blocked_until⟩)

/-- `RateLimiter.reset(key)`: unconditionally drop the key from both
dictionaries. -/
def reset (key : String) (s : RLState) : RLState :=
  ⟨eraseD s.attempts key, eraseD s.blocked_until key⟩

/-- A sequence of `record_attempt(key)` calls at the given successive
current times, collecting the returned booleans. -/
def runAttempts (cfg : RLConfig) (key : String) (ts : List Int) (s : RLState) :
    Except Unit (List Bool × RLState) :=
  match ts with
  | [] => .ok ([], s)
  | t :: rest => do
    let (b, s') ← record_attempt cfg key t s
    let (bs, s'') ← runAttempts cfg key rest s'
    .ok (b :: bs, s'')

/-! ### Dictionary lemmas -/

theorem lookupD_insertD_self {α β : Type} [DecidableEq α] (l : List (α × β)) (k : α) (v : β) :
    lookupD (insertD l k v) k = some v := by
  induction l with
  | nil => simp [insertD, lookupD]
  | cons p r ih =>
    obtain ⟨a, b⟩ := p
    by_cases h : a = k
    · simp [insertD, lookupD, h]
    · simp [insertD, lookupD, h, ih]

theorem lookupD_eraseD_self {α β : Type} [DecidableEq α] (l : List (α × β)) (k : α) :
    lookupD (eraseD l k) k = none := by
  induction l with
  | nil => simp [eraseD, lookupD]
  | cons p r ih =>
    obtain ⟨a, b⟩ := p
    by_cases h : a = k
    · simpa [eraseD, List.filter, h] using ih
    · simpa [eraseD, List.filter, h, lookupD] using ih

theorem eraseD_of_lookupD_none {α β : Type} [DecidableEq α] (l : List (α × β)) (k : α)
    (h : lookupD l k = none) : eraseD l k = l := by
  induction l with
  | nil => rfl
  | cons p r ih =>
    obtain ⟨a, b⟩ := p
    by_cases ha : a = k
    · simp [lookupD, ha] at h
    · simp only [lookupD, if_neg ha] at h
      simpa [eraseD, List.filter, ha] using ih h

theorem eraseD_idem {α β : Type} [DecidableEq α] (l : List (α × β)) (k : α) :
    eraseD (eraseD l k) k = eraseD l k :=
  eraseD_of_lookupD_none _ _ (lookupD_eraseD_self l k)

theorem lookupD_mem {α β : Type} [DecidableEq α] {l : List (α × β)} {k : α} {v : β}
    (h : lookupD l k = some v) : (k, v) ∈ l := by
  induction l with
  | nil => simp [lookupD] at h
  | cons p r ih =>
    obtain ⟨a, b⟩ := p
    by_cases ha : a = k
    · have hb : b = v := by simpa [lookupD, ha] using h
      rw [ha, hb]
      exact List.mem_cons_self _ _
    · simp only [lookupD, if_neg ha] at h
      exact List.mem_cons_of_mem _ (ih h)

theorem mem_insertD {α β : Type} [DecidableEq α] {l : List (α × β)} {k : α} {v : β}
    {p : α × β} (h : p ∈ insertD l k v) : p = (k, v) ∨ p ∈ l := by
  induction l with
  | nil => simpa [insertD] using h
  | cons q r ih =>
    obtain ⟨a, b⟩ := q
    by_cases ha : a = k
    · simp only [insertD, if_pos ha] at h
      rcases List.mem_cons.mp h with h1 | h1
      · exact Or.inl h1
      · exact Or.inr (List.mem_cons_of_mem _ h1)
    · simp only [insertD, if_neg ha] at h
      rcases List.mem_cons.mp h with h1 | h1
      · exact Or.inr (h1 ▸ List.mem_cons_self _ _)
      · rcases ih h1 with h2 | h2
        · exact Or.inl h2
        · exact Or.inr (List.mem_cons_of_mem _ h2)

theorem sumVals_insertD_bump {α : Type} [DecidableEq α] (l : List (α × Int)) (k : α) :
    sumVals (insertD l k ((lookupD l k).getD 0 + 1)) = sumVals l + 1 := by
  induction l with
  | nil => simp [insertD, lookupD, sumVals]
  | cons p r ih =>
    obtain ⟨a, b⟩ := p
    by_cases ha : a = k
    · subst ha
      have h2 : lookupD ((a, b) :: r) a = some b := by simp [lookupD]
      have h1 : insertD ((a, b) :: r) a ((lookupD ((a, b) :: r) a).getD 0 + 1)
          = (a, b + 1) :: r := by simp [insertD, h2]
      rw [h1]
      simp only [sumVals, List.foldr]
      ring
    · simp only [insertD, if_neg ha, lookupD, if_neg ha, sumVals, List.foldr]
      simp only [sumVals] at ih
      rw [ih]
      ring

theorem insertD_ne_nil {α β : Type} [DecidableEq α] (l : List (α × β)) (k : α) (v : β) :
    insertD l k v ≠ [] := by
  cases l with
  | nil => simp [insertD]
  | cons p r =>
    obtain ⟨a, b⟩ := p
    by_cases ha : a = k <;> simp [insertD, ha]

/-! ### Well-formed attempt dictionaries and cleanup/count characterizations -/

/-- Every entry of the inner dictionary is a `datetime` bucket no older
than `lo`, with a positive count.  This is the shape `record_attempt`
produces for buckets still inside the window. -/
def innerGood (lo : Int) (inner : List (TS × Int)) : Prop :=
  ∀ p ∈ inner, (∃ b, p.1 = TS.dt b ∧ lo ≤ b) ∧ 1 ≤ p.2

/-- Cleanup keeps every entry (in order) when all buckets are `datetime`
values at or after the cutoff. -/
theorem cleanupInner_keep {lo cutoff : Int} {inner : List (TS × Int)}
    (hg : innerGood lo inner) (hc : cutoff ≤ lo) :
    cleanupInner cutoff inner = .ok inner := by
  induction inner with
  | nil => rfl
  | cons p r ih =>
    obtain ⟨ts, c⟩ := p
    obtain ⟨⟨b, hb, hlob⟩, -⟩ := hg (ts, c) (List.mem_cons_self _ _)
    have hr : innerGood lo r := fun q hq => hg q (List.mem_cons_of_mem _ hq)
    subst hb
    simp only [cleanupInner, ih hr, Except.map, if_pos (le_trans hc hlob)]

/-- Counting sums every entry when all buckets are `datetime` values at
or after the cutoff. -/
theorem countInner_all {lo cutoff now : Int} {inner : List (TS × Int)}
    (hg : innerGood lo inner) (hc : cutoff ≤ lo) :
    countInner cutoff now inner = .ok (sumVals inner) := by
  induction inner with
  | nil => rfl
  | cons p r ih =>
    obtain ⟨ts, c⟩ := p
    obtain ⟨⟨b, hb, hlob⟩, -⟩ := hg (ts, c) (List.mem_cons_self _ _)
    have hr : innerGood lo r := fun q hq => hg q (List.mem_cons_of_mem _ hq)
    subst hb
    simp only [countInner, ih hr, Except.map, if_pos (le_trans hc hlob), sumVals, List.foldr]

/-- Whether cleanup keeps an entry, given that no entry raises: a
`datetime` bucket is kept iff at or after the cutoff, a string entry
whose conversion is caught is always kept, a parsed string compares its
epoch value.  (Only used under a hypothesis ruling out `overflowError`.) -/
def keepB (cutoff : Int) (p : TS × Int) : Bool :=
  match p.1 with
  | .dt t => decide (cutoff ≤ t)
  | .str s =>
    match pyIntFloat s with
    | .ok n => decide (cutoff ≤ fromTs n)
    | _ => true

/-- An inner dictionary contains an entry whose timestamp conversion
raises an uncaught `OverflowError`. -/
def hasOverflow (inner : List (TS × Int)) : Bool :=
  inner.any (fun p =>
    match p.1 with
    | .dt _ => false
    | .str s =>
      match pyIntFloat s with
      | .overflowError => true
      | _ => false)

/-- When no entry raises, cleanup is exactly an in-order filter. -/
theorem cleanupInner_eq_filter {cutoff : Int} {inner : List (TS × Int)}
    (h : hasOverflow inner = false) :
    cleanupInner cutoff inner = .ok (inner.filter (keepB cutoff)) := by
  induction inner with
  | nil => rfl
  | cons p r ih =>
    obtain ⟨ts, c⟩ := p
    simp only [hasOverflow, List.any_cons, Bool.or_eq_false_iff] at h
    have hr := ih h.2
    cases ts with
    | dt t =>
      simp only [cleanupInner, hr, Except.map, List.filter, keepB]
      by_cases hk : cutoff ≤ t <;> simp [hk]
    | str s =>
      cases hp : pyIntFloat s with
      | ok n =>
        simp only [cleanupInner, hp, hr, Except.map, List.filter, keepB]
        by_cases hk : cutoff ≤ fromTs n <;> simp [hk]
      | valueError =>
        simp [cleanupInner, hp, hr, Except.map, List.filter, keepB]
      | overflowError => simp [hp] at h

/-- Reduction of `record_attempt` once the cleanup result is known. -/
theorem record_attempt_reduce (cfg : RLConfig) (k : String) (now : Int) (s : RLState)
    (att1 : List (String × List (TS × Int)))
    (h1 : _cleanup cfg k now
        (if (lookupD s.attempts k).isNone then insertD s.attempts k [] else s.attempts)
      = .ok att1) :
    record_attempt cfg k now s =
      (if cfg.max_attempts ≤ sumVals (bumpBucket
            ((lookupD (if (lookupD att1 k).isNone then insertD att1 k [] else att1) k).getD [])
            (minuteFloor now))
       then .ok (true,
          ⟨insertD (if (lookupD att1 k).isNone then insertD att1 k [] else att1) k
              (bumpBucket
                ((lookupD (if (lookupD att1 k).isNone then insertD att1 k [] else att1) k).getD [])
                (minuteFloor now)),
            insertD s.blocked_until k (now + usPerSec * cfg.block_seconds)⟩)
       else .ok (false,
          ⟨insertD (if (lookupD att1 k).isNone then insertD att1 k [] else att1) k
              (bumpBucket
                ((lookupD (if (lookupD att1 k).isNone then insertD att1 k [] else att1) k).getD [])
                (minuteFloor now)),
            s.blocked_until⟩)) := by
  simp only [record_attempt, h1, Except.bind, bind, Except.pure, pure]

/-- Master characterization of one `record_attempt` call: if cleaning the
key's current dictionary yields `inner₀` (no uncaught exception), then
the call succeeds, the minute bucket of `now` is incremented on top of
`inner₀`, the returned boolean is exactly "the new bucket sum reached
`max_attempts`", and `_blocked_until[key]` is overwritten with
`now + block_seconds` in that case and left untouched otherwise. -/
theorem record_attempt_spec (cfg : RLConfig) (k : String) (now : Int) (s : RLState)
    (inner₀ : List (TS × Int))
    (hC : cleanupInner (now - usPerSec * cfg.window_seconds) ((lookupD s.attempts k).getD [])
      = .ok inner₀) :
    ∃ s' : RLState,
      record_attempt cfg k now s =
        .ok (decide (cfg.max_attempts ≤ sumVals (bumpBucket inner₀ (minuteFloor now))), s') ∧
      lookupD s'.attempts k = some (bumpBucket inner₀ (minuteFloor now)) ∧
      lookupD s'.blocked_until k =
        (if cfg.max_attempts ≤ sumVals (bumpBucket inner₀ (minuteFloor now))
          then some (now + usPerSec * cfg.block_seconds) else lookupD s.blocked_until k) := by
  obtain ⟨att1, h1, hA2⟩ :
      ∃ att1, _cleanup cfg k now
          (if (lookupD s.attempts k).isNone then insertD s.attempts k [] else s.attempts)
          = .ok att1 ∧
        lookupD (if (lookupD att1 k).isNone then insertD att1 k [] else att1) k
          = some inner₀ := by
    cases hl : lookupD s.attempts k with
    | none =>
      have h0 : inner₀ = [] := by
        rw [hl] at hC
        simpa [cleanupInner] using hC.symm
      refine ⟨eraseD (insertD s.attempts k []) k, ?_, ?_⟩
      · simp [hl, _cleanup, lookupD_insertD_self, cleanupInner, Except.map]
      · simp [lookupD_eraseD_self, lookupD_insertD_self, h0]
    | some inner =>
      rw [hl] at hC
      simp only [Option.getD_some] at hC
      cases h0 : inner₀ with
      | nil =>
        subst h0
        refine ⟨eraseD s.attempts k, ?_, ?_⟩
        · simp [hl, _cleanup, hC, Except.map]
        · simp [lookupD_eraseD_self, lookupD_insertD_self]
      | cons q tail =>
        subst h0
        refine ⟨insertD s.attempts k (q :: tail), ?_, ?_⟩
        · simp [hl, _cleanup, hC, Except.map]
        · simp [lookupD_insertD_self]
  have hA2' : lookupD (if lookupD att1 k = none then insertD att1 k [] else att1) k
      = some inner₀ := by
    simpa using hA2
  rw [record_attempt_reduce cfg k now s att1 h1]
  by_cases hth : cfg.max_attempts ≤ sumVals (bumpBucket inner₀ (minuteFloor now))
  · refine ⟨⟨insertD (if (lookupD att1 k).isNone then insertD att1 k [] else att1) k
        (bumpBucket
          ((lookupD (if (lookupD att1 k).isNone then insertD att1 k [] else att1) k).getD [])
          (minuteFloor now)),
      insertD s.blocked_until k (now + usPerSec * cfg.block_seconds)⟩, ?_, ?_, ?_⟩
    · simp [hA2', hth]
    · simp [hA2', lookupD_insertD_self]
    · simp [lookupD_insertD_self, hth]
  · refine ⟨⟨insertD (if (lookupD att1 k).isNone then insertD att1 k [] else att1) k
        (bumpBucket
          ((lookupD (if (lookupD att1 k).isNone then insertD att1 k [] else att1) k).getD [])
          (minuteFloor now)),
      s.blocked_until⟩, ?_, ?_, ?_⟩
    · simp [hA2', hth]
    · simp [hA2', lookupD_insertD_self]
    · simp [hth]

theorem sumVals_bumpBucket (inner : List (TS × Int)) (m : Int) :
    sumVals (bumpBucket inner m) = sumVals inner + 1 :=
  sumVals_insertD_bump inner (TS.dt m)

theorem innerGood_bumpBucket {lo : Int} {inner : List (TS × Int)} {m : Int}
    (hg : innerGood lo inner) (hm : lo ≤ m) :
    innerGood lo (bumpBucket inner m) := by
  intro p hp
  rcases mem_insertD hp with h | h
  · subst h
    refine ⟨⟨m, rfl, hm⟩, ?_⟩
    cases hl : lookupD inner (TS.dt m) with
    | none => simp
    | some v =>
      have hv := (hg _ (lookupD_mem hl)).2
      simp only [Option.getD_some]
      omega
  · exact hg p h

theorem sumVals_nonneg_of_good {lo : Int} {inner : List (TS × Int)} (hg : innerGood lo inner) :
    0 ≤ sumVals inner := by
  induction inner with
  | nil => simp [sumVals]
  | cons p r ih =>
    have h1 := (hg p (List.mem_cons_self _ _)).2
    have h2 : innerGood lo r := fun q hq => hg q (List.mem_cons_of_mem _ hq)
    have h3 : sumVals (p :: r) = p.2 + sumVals r := rfl
    have h4 := ih h2
    omega

/-- A nonempty run of `record_attempt` calls for key `k`, all at times
`≤ now` whose minute buckets are still inside the window anchored at
`now`, starting from a state whose dictionary for `k` (if any) is made
of in-window minute buckets summing to `c`: the run succeeds, the final
dictionary for `k` is in-window buckets summing to `c + ts.length`, and
`_blocked_until[k]` ends as `last time + block_seconds` if the running
total ever reached `max_attempts` (equivalently, the final total did)
and is untouched otherwise. -/
theorem runAttempts_spec (cfg : RLConfig) (k : String) (now : Int) :
    ∀ (ts : List Int) (hne : ts ≠ []) (s : RLState) (c : Int),
      (∀ t ∈ ts, t ≤ now ∧ now - usPerSec * cfg.window_seconds ≤ minuteFloor t) →
      innerGood (now - usPerSec * cfg.window_seconds) ((lookupD s.attempts k).getD []) →
      sumVals ((lookupD s.attempts k).getD []) = c →
      ∃ out : List Bool, ∃ s' : RLState, ∃ inner' : List (TS × Int),
        runAttempts cfg k ts s = .ok (out, s') ∧
        lookupD s'.attempts k = some inner' ∧
        innerGood (now - usPerSec * cfg.window_seconds) inner' ∧
        sumVals inner' = c + ts.length ∧
        lookupD s'.blocked_until k =
          (if cfg.max_attempts ≤ c + ts.length
            then some (ts.getLast hne + usPerSec * cfg.block_seconds)
            else lookupD s.blocked_until k) := by
  intro ts
  induction ts with
  | nil => intro hne; exact absurd rfl hne
  | cons t rest ih =>
    intro hne s c hts hg hsum
    have ht := hts t (List.mem_cons_self _ _)
    have hCl : cleanupInner (t - usPerSec * cfg.window_seconds)
        ((lookupD s.attempts k).getD []) = .ok ((lookupD s.attempts k).getD []) :=
      cleanupInner_keep hg (sub_le_sub_right ht.1 _)
    obtain ⟨s₁, hrec, hA1, hB1⟩ := record_attempt_spec cfg k t s _ hCl
    have hg₁ : innerGood (now - usPerSec * cfg.window_seconds)
        (bumpBucket ((lookupD s.attempts k).getD []) (minuteFloor t)) :=
      innerGood_bumpBucket hg ht.2
    have hsum₁ : sumVals (bumpBucket ((lookupD s.attempts k).getD []) (minuteFloor t))
        = c + 1 := by
      rw [sumVals_bumpBucket, hsum]
    cases rest with
    | nil =>
      refine ⟨[decide (cfg.max_attempts ≤
          sumVals (bumpBucket ((lookupD s.attempts k).getD []) (minuteFloor t)))],
        s₁, bumpBucket ((lookupD s.attempts k).getD []) (minuteFloor t),
        ?_, hA1, hg₁, ?_, ?_⟩
      · simp only [runAttempts, hrec]
        rfl
      · rw [hsum₁]
        simp
      · rw [hB1, hsum₁]
        simp [List.getLast]
    | cons r rs =>
      have hts' : ∀ u ∈ r :: rs,
          u ≤ now ∧ now - usPerSec * cfg.window_seconds ≤ minuteFloor u :=
        fun u hu => hts u (List.mem_cons_of_mem _ hu)
      obtain ⟨out, s', inner', hrun, hA', hg', hsum', hB'⟩ :=
        ih (List.cons_ne_nil r rs) s₁ (c + 1) hts'
          (by rw [hA1]; simpa using hg₁) (by rw [hA1]; simpa using hsum₁)
      refine ⟨decide (cfg.max_attempts ≤
          sumVals (bumpBucket ((lookupD s.attempts k).getD []) (minuteFloor t))) :: out,
        s', inner', ?_, hA', hg', ?_, ?_⟩
      · have hstep : runAttempts cfg k (t :: r :: rs) s
            = Except.bind (record_attempt cfg k t s) (fun p =>
                Except.bind (runAttempts cfg k (r :: rs) p.2)
                  (fun q => Except.ok (p.1 :: q.1, q.2))) := rfl
        rw [hstep, hrec]
        simp [Except.bind, hrun]
      · rw [hsum']
        simp only [List.length_cons]
        push_cast
        ring
      · rw [hB', hB1, hsum₁]
        have hlast : (t :: r :: rs).getLast hne = (r :: rs).getLast (List.cons_ne_nil r rs) :=
          rfl
        rw [hlast]
        have hlen : ((t :: r :: rs).length : Int) = ((r :: rs).length : Int) + 1 := by
          simp only [List.length_cons]
          push_cast
          ring
        rw [hlen]
        by_cases hcond : cfg.max_attempts ≤ c + 1 + ((r :: rs).length : Int)
        · rw [if_pos hcond, if_pos (by omega)]
        · rw [if_neg hcond, if_neg (by omega), if_neg (by omega)]

/-- An active block short-circuits: the stored expiry is returned and the
state is untouched. -/
theorem is_rate_limited_blocked (cfg : RLConfig) (k : String) (now : Int) (s : RLState)
    (bu : Int) (hbu : lookupD s.blocked_until k = some bu) (hlt : now < bu) :
    is_rate_limited cfg k now s = .ok ((true, some bu), s) := by
  simp [is_rate_limited, hbu, hlt]

/-- An expired block (`blocked_until <= now`) is cleared together with
the whole attempt history of the key — the same effect as `reset` — and
the call reports not limited. -/
theorem is_rate_limited_expired (cfg : RLConfig) (k : String) (now : Int) (s : RLState)
    (bu : Int) (hbu : lookupD s.blocked_until k = some bu) (hge : bu ≤ now) :
    is_rate_limited cfg k now s = .ok ((false, none), reset k s) := by
  have h1 : lookupD (eraseD s.attempts k) k = none := lookupD_eraseD_self _ _
  simp only [is_rate_limited, hbu, if_neg (not_lt.mpr hge)]
  simp [checkAttempts, h1, reset]

/-- A key unknown to both dictionaries is reported not limited with the
state untouched. -/
theorem is_rate_limited_fresh (cfg : RLConfig) (k : String) (now : Int) (s : RLState)
    (hb : lookupD s.blocked_until k = none) (ha : lookupD s.attempts k = none) :
    is_rate_limited cfg k now s = .ok ((false, none), s) := by
  simp [is_rate_limited, hb, checkAttempts, ha]

/-- Reduction of the attempt-counting path once cleanup and count
results are known. -/
theorem checkAttempts_reduce (cfg : RLConfig) (k : String) (now : Int) (s : RLState)
    (att : List (String × List (TS × Int))) (cnt : Int)
    (hne : (lookupD s.attempts k).isNone = false)
    (h1 : _cleanup cfg k now s.attempts = .ok att)
    (h2 : _count_recent_attempts cfg k now att = .ok cnt) :
    checkAttempts cfg k now s =
      (if cfg.max_attempts ≤ cnt
       then .ok ((true, some (now + usPerSec * cfg.block_seconds)),
          ⟨att, insertD s.blocked_until k (now + usPerSec * cfg.block_seconds)⟩)
       else .ok ((false, none), ⟨att, s.blocked_until⟩)) := by
  simp only [checkAttempts, hne, Bool.false_eq_true, if_false, h1, h2, Except.bind, bind,
    Except.pure, pure]

/-- Not blocked and strictly under the threshold: the query reports
`(false, none)` (the state may still have been compacted by cleanup). -/
theorem is_rate_limited_under (cfg : RLConfig) (k : String) (now : Int) (s : RLState)
    (inner : List (TS × Int))
    (hb : lookupD s.blocked_until k = none)
    (ha : lookupD s.attempts k = some inner)
    (hg : innerGood (now - usPerSec * cfg.window_seconds) inner)
    (hlt : sumVals inner < cfg.max_attempts) :
    ∃ s' : RLState, is_rate_limited cfg k now s = .ok ((false, none), s') := by
  have hCl : cleanupInner (now - usPerSec * cfg.window_seconds) inner = .ok inner :=
    cleanupInner_keep hg le_rfl
  have hne : (lookupD s.attempts k).isNone = false := by simp [ha]
  cases inner with
  | nil =>
    have h1 : _cleanup cfg k now s.attempts = .ok (eraseD s.attempts k) := by
      simp [_cleanup, ha, cleanupInner, Except.map]
    have h2 : _count_recent_attempts cfg k now (eraseD s.attempts k) = .ok 0 := by
      simp [_count_recent_attempts, lookupD_eraseD_self]
    refine ⟨⟨eraseD s.attempts k, s.blocked_until⟩, ?_⟩
    have hlt0 : ¬ cfg.max_attempts ≤ (0 : Int) := by
      simp only [sumVals, List.foldr] at hlt
      omega
    simp only [is_rate_limited, hb, checkAttempts_reduce cfg k now s _ 0 hne h1 h2,
      if_neg hlt0]
  | cons q tail =>
    have h1 : _cleanup cfg k now s.attempts = .ok (insertD s.attempts k (q :: tail)) := by
      simp [_cleanup, ha, hCl, Except.map]
    have h2 : _count_recent_attempts cfg k now (insertD s.attempts k (q :: tail))
        = .ok (sumVals (q :: tail)) := by
      simp [_count_recent_attempts, lookupD_insertD_self, countInner_all hg le_rfl]
    refine ⟨⟨insertD s.attempts k (q :: tail), s.blocked_until⟩, ?_⟩
    simp only [is_rate_limited, hb,
      checkAttempts_reduce cfg k now s _ (sumVals (q :: tail)) hne h1 h2,
      if_neg (not_le.mpr hlt)]

theorem usPerSec_pos : (0 : Int) < usPerSec := by norm_num [usPerSec]

theorem hasOverflow_eq_false_of_dt {inner : List (TS × Int)}
    (hdt : ∀ p ∈ inner, ∃ b, p.1 = TS.dt b) : hasOverflow inner = false := by
  induction inner with
  | nil => rfl
  | cons p r ih =>
    obtain ⟨b, hb⟩ := hdt p (List.mem_cons_self _ _)
    have hr := ih (fun q hq => hdt q (List.mem_cons_of_mem _ hq))
    simp only [hasOverflow, List.any_cons, Bool.or_eq_false_iff]
    refine ⟨?_, ?_⟩
    · rw [hb]
    · simpa [hasOverflow] using hr

/-- Login limiter configuration used in the threshold scenarios:
`max_attempts = 3`, default window and block. -/
def cfg3 : RLConfig := ⟨3, 300, 3600⟩

/-- Configuration of the auto-expiry scenario: `block_seconds = 1`. -/
def cfg31 : RLConfig := ⟨3, 300, 1⟩

/-- The default login limiter configuration. -/
def cfg0 : RLConfig := ⟨5, 300, 3600⟩

/-- Configuration of the block-expiry tests: `block_seconds = 10`. -/
def cfg510 : RLConfig := ⟨5, 300, 10⟩

/-- C1 (amended): for a fresh key and a sequence of `record_attempt`
calls at times `≤ now` whose MINUTE BUCKETS all still lie inside the
window anchored at `now` (the limiter counts at minute granularity, so
this is strictly stronger than the raw timestamps lying in the window),
`is_rate_limited` at `now` returns `(false, none)` while the number of
recorded attempts is below `max_attempts`, and returns
`(true, now + block_seconds)` — a future time — when the count has
reached `max_attempts` and the query is made at the time of the last
attempt. -/
theorem C1_threshold_with_bucket_window (cfg : RLConfig) (k : String) (now : Int)
    (ts : List Int) (s : RLState)
    (hA : lookupD s.attempts k = none) (hB : lookupD s.blocked_until k = none)
    (hts : ∀ t ∈ ts, t ≤ now ∧ now - usPerSec * cfg.window_seconds ≤ minuteFloor t)
    (hblk : 0 < cfg.block_seconds) :
    ∃ out : List Bool, ∃ s' : RLState,
      runAttempts cfg k ts s = .ok (out, s') ∧
      (((ts.length : Int) < cfg.max_attempts →
        ∃ s'' : RLState, is_rate_limited cfg k now s' = .ok ((false, none), s'')) ∧
       (∀ hne : ts ≠ [], cfg.max_attempts ≤ (ts.length : Int) → now = ts.getLast hne →
        is_rate_limited cfg k now s'
          = .ok ((true, some (now + usPerSec * cfg.block_seconds)), s'))) := by
  cases ts with
  | nil =>
    refine ⟨[], s, rfl, ?_, ?_⟩
    · intro h
      exact ⟨s, is_rate_limited_fresh cfg k now s hB hA⟩
    · intro hne
      exact absurd rfl hne
  | cons t rest =>
    obtain ⟨out, s', inner', hrun, hA', hg', hsum', hB'⟩ :=
      runAttempts_spec cfg k now (t :: rest) (List.cons_ne_nil t rest) s 0
        hts (by simp [hA, innerGood]) (by simp [hA, sumVals])
    refine ⟨out, s', hrun, ?_, ?_⟩
    · intro hlen
      have hcond : ¬ cfg.max_attempts ≤ 0 + ((t :: rest).length : Int) := by omega
      rw [if_neg hcond] at hB'
      exact is_rate_limited_under cfg k now s' inner' (hB'.trans hB) hA' hg'
        (by rw [hsum']; omega)
    · intro hne hlen hnow
      have hcond : cfg.max_attempts ≤ 0 + ((t :: rest).length : Int) := by omega
      rw [if_pos hcond] at hB'
      have hBpos : (0 : Int) < usPerSec * cfg.block_seconds :=
        mul_pos usPerSec_pos hblk
      have hfut : now < (t :: rest).getLast (List.cons_ne_nil t rest)
          + usPerSec * cfg.block_seconds := by
        rw [hnow]
        omega
      have hres := is_rate_limited_blocked cfg k now s' _ hB' hfut
      rw [hres, hnow]

/-- C1 witness: two attempts (at 10s and 20s, buckets in-window) on a
fresh key under `max_attempts = 3`, queried at 20s. -/
theorem C1_witness :
    ∃ out : List Bool, ∃ s' : RLState,
      runAttempts cfg3 "k" [sec 10, sec 20] ⟨[], []⟩ = .ok (out, s') ∧
      (((([sec 10, sec 20] : List Int).length : Int) < cfg3.max_attempts →
        ∃ s'' : RLState, is_rate_limited cfg3 "k" (sec 20) s' = .ok ((false, none), s'')) ∧
       (∀ hne : ([sec 10, sec 20] : List Int) ≠ [],
          cfg3.max_attempts ≤ (([sec 10, sec 20] : List Int).length : Int) →
          sec 20 = ([sec 10, sec 20] : List Int).getLast hne →
          is_rate_limited cfg3 "k" (sec 20) s'
            = .ok ((true, some (sec 20 + usPerSec * cfg3.block_seconds)), s'))) :=
  C1_threshold_with_bucket_window cfg3 "k" (sec 20) [sec 10, sec 20] ⟨[], []⟩ rfl rfl
    (by decide) (by decide)

/-- C1 counterexample: with `max_attempts = 3`, three `record_attempt`
calls at 59s, 59s and 358s — all raw timestamps inside the window
`(58s, 358s]` of the query time, so the windowed attempt count is
3 = `max_attempts` — every call returns `false` and `is_rate_limited`
at 358s still returns `(false, none)`: the minute bucket (minute 0) of
the first two attempts left the window before their raw timestamps did,
so the claimed `(true, future)` answer does not materialize. -/
theorem C1_counterexample :
    runAttempts cfg3 "k" [sec 59, sec 59, sec 358] ⟨[], []⟩ =
      .ok ([false, false, false], ⟨[("k", [(TS.dt (sec 300), 1)])], []⟩) ∧
    is_rate_limited cfg3 "k" (sec 358) ⟨[("k", [(TS.dt (sec 300), 1)])], []⟩ =
      .ok ((false, none), ⟨[("k", [(TS.dt (sec 300), 1)])], []⟩) ∧
    sec 358 - usPerSec * cfg3.window_seconds ≤ sec 59 ∧ sec 59 ≤ sec 358 ∧
    cfg3.max_attempts ≤ (3 : Int) :=
  ⟨rfl, rfl, by decide, by decide, by decide⟩

/-- C2 counterexample: with `max_attempts = 3` on a fresh key, the THIRD
`record_attempt` already returns `true` (the sum reaches the threshold),
so the claimed pattern `false, false, false, true` does not occur: the
actual pattern over four calls is `false, false, true, true`. -/
theorem C2_counterexample :
    runAttempts cfg3 "k" [0, 0, 0, 0] ⟨[], []⟩ =
      .ok ([false, false, true, true], ⟨[("k", [(TS.dt 0, 4)])], [("k", sec 3600)]⟩) ∧
    ([false, false, true, true] : List Bool) ≠ [false, false, false, true] :=
  ⟨rfl, by decide⟩

/-- C2 (amended): with `max_attempts = 3` on a fresh key, the first two
`record_attempt` calls return `false`, the third and fourth return
`true` (blocking fires when the count REACHES `max_attempts`), and
afterwards `is_rate_limited` returns `(true, t)` with `t` in the
future. -/
theorem C2_basic_block_scenario :
    runAttempts cfg3 "k" [0, 0, 0, 0] ⟨[], []⟩ =
      .ok ([false, false, true, true], ⟨[("k", [(TS.dt 0, 4)])], [("k", sec 3600)]⟩) ∧
    is_rate_limited cfg3 "k" 0 ⟨[("k", [(TS.dt 0, 4)])], [("k", sec 3600)]⟩ =
      .ok ((true, some (sec 3600)), ⟨[("k", [(TS.dt 0, 4)])], [("k", sec 3600)]⟩) ∧
    (0 : Int) < sec 3600 :=
  ⟨rfl, rfl, by decide⟩

/-- C3 counterexample: a key blocked at `T = 0` with `block_seconds = 10`
(`blocked_until = 10s`) queried exactly at `now = T + B = 10s` — a time
inside the claimed blocked interval `(T, T+B]` — is reported UNBLOCKED
and its state is cleared: the code treats `blocked_until <= now` as
expired. -/
theorem C3_counterexample :
    is_rate_limited cfg510 "k" (sec 10) ⟨[("k", [(TS.dt 0, 5)])], [("k", sec 10)]⟩ =
      .ok ((false, none), ⟨[], []⟩) := rfl

/-- C3 (amended): a key with `blocked_until[key] = T + block_seconds` is
reported blocked, with the stored expiry and an unchanged state, at
every query time strictly before `T + block_seconds` (in particular
throughout the open interval `(T, T + block_seconds)`), and is reported
unblocked — with the block entry and the whole attempt history cleared,
exactly as by `reset` — at every query time `>= T + block_seconds`. -/
theorem C3_block_expiry (cfg : RLConfig) (k : String) (s : RLState) (T now : Int)
    (hbu : lookupD s.blocked_until k = some (T + usPerSec * cfg.block_seconds)) :
    (now < T + usPerSec * cfg.block_seconds →
      is_rate_limited cfg k now s
        = .ok ((true, some (T + usPerSec * cfg.block_seconds)), s)) ∧
    (T + usPerSec * cfg.block_seconds ≤ now →
      is_rate_limited cfg k now s = .ok ((false, none), reset k s)) :=
  ⟨fun h => is_rate_limited_blocked cfg k now s _ hbu h,
   fun h => is_rate_limited_expired cfg k now s _ hbu h⟩

/-- C3 witness: block installed at `T = 0` with `block_seconds = 10`;
still blocked at 3s, expired and cleared at 10s. -/
theorem C3_witness :
    is_rate_limited cfg510 "k" (sec 3) ⟨[("k", [(TS.dt 0, 5)])], [("k", sec 10)]⟩
      = .ok ((true, some (0 + usPerSec * cfg510.block_seconds)),
          ⟨[("k", [(TS.dt 0, 5)])], [("k", sec 10)]⟩) ∧
    is_rate_limited cfg510 "k" (sec 10) ⟨[("k", [(TS.dt 0, 5)])], [("k", sec 10)]⟩
      = .ok ((false, none), reset "k" ⟨[("k", [(TS.dt 0, 5)])], [("k", sec 10)]⟩) :=
  ⟨(C3_block_expiry cfg510 "k" ⟨[("k", [(TS.dt 0, 5)])], [("k", sec 10)]⟩ 0 (sec 3)
      (by decide)).1 (by decide),
   (C3_block_expiry cfg510 "k" ⟨[("k", [(TS.dt 0, 5)])], [("k", sec 10)]⟩ 0 (sec 10)
      (by decide)).2 (by decide)⟩

/-- C4 counterexample: `max_attempts = 3`, `block_seconds = 1`.  Three
attempts at 0s block the key until 1s.  The block has expired by 2s,
but the first operation invoked after expiry is `record_attempt`, which
never consults `blocked_until`: it counts the pre-block history (bucket
sum becomes 4) and returns `true`, re-blocking the key — the key does
NOT behave as fresh with zero recorded attempts. -/
theorem C4_counterexample :
    runAttempts cfg31 "k" [0, 0, 0] ⟨[], []⟩ =
      .ok ([false, false, true], ⟨[("k", [(TS.dt 0, 3)])], [("k", sec 1)]⟩) ∧
    sec 1 ≤ sec 2 ∧
    record_attempt cfg31 "k" (sec 2) ⟨[("k", [(TS.dt 0, 3)])], [("k", sec 1)]⟩ =
      .ok (true, ⟨[("k", [(TS.dt 0, 4)])], [("k", sec 3)]⟩) :=
  ⟨rfl, by decide, rfl⟩

/-- C4 (amended): the cascading clear on block expiry is performed only
by `is_rate_limited`: when that is the first operation invoked after
`blocked_until[key] <= now`, it removes both the block entry and the
whole attempt history (the same effect as `reset`), and a following
`record_attempt` counts from zero — its bucket dictionary becomes the
single fresh bucket with count 1, and it reports blocked iff
`max_attempts <= 1`.  (`record_attempt` itself never consults or clears
an expired block; see C10.) -/
theorem C4_expiry_clears_via_query (cfg : RLConfig) (k : String) (now t' : Int)
    (s : RLState) (bu : Int)
    (hbu : lookupD s.blocked_until k = some bu) (hexp : bu ≤ now) :
    is_rate_limited cfg k now s = .ok ((false, none), reset k s) ∧
    (∃ s₃ : RLState,
      record_attempt cfg k t' (reset k s) = .ok (decide (cfg.max_attempts ≤ 1), s₃) ∧
      lookupD s₃.attempts k = some [(TS.dt (minuteFloor t'), 1)]) := by
  refine ⟨is_rate_limited_expired cfg k now s bu hbu hexp, ?_⟩
  have hC : cleanupInner (t' - usPerSec * cfg.window_seconds)
      ((lookupD (reset k s).attempts k).getD []) = .ok [] := by
    simp [reset, lookupD_eraseD_self, cleanupInner]
  obtain ⟨s₃, h1, h2, h3⟩ := record_attempt_spec cfg k t' (reset k s) [] hC
  refine ⟨s₃, ?_, ?_⟩
  · simpa [bumpBucket, insertD, lookupD, sumVals] using h1
  · rw [h2]
    rfl

/-- C4 witness: the counterexample state queried first through
`is_rate_limited` at 2s: both entries are cleared and the next
`record_attempt` (at 2s) starts from a single bucket of count 1,
returning `false` since `max_attempts = 3 > 1`. -/
theorem C4_witness :
    is_rate_limited cfg31 "k" (sec 2) ⟨[("k", [(TS.dt 0, 3)])], [("k", sec 1)]⟩
      = .ok ((false, none), reset "k" ⟨[("k", [(TS.dt 0, 3)])], [("k", sec 1)]⟩) ∧
    (∃ s₃ : RLState,
      record_attempt cfg31 "k" (sec 2) (reset "k" ⟨[("k", [(TS.dt 0, 3)])], [("k", sec 1)]⟩)
        = .ok (decide (cfg31.max_attempts ≤ 1), s₃) ∧
      lookupD s₃.attempts "k" = some [(TS.dt (minuteFloor (sec 2)), 1)]) :=
  C4_expiry_clears_via_query cfg31 "k" (sec 2) (sec 2)
    ⟨[("k", [(TS.dt 0, 3)])], [("k", sec 1)]⟩ (sec 1) (by decide) (by decide)

/-- C5 counterexample: with `window_seconds = 300`, a bucket recorded at
time 0 is EXACTLY `window_seconds` old at `now = 300s` — and it is
retained by `_cleanup` and included (count 2) by
`_count_recent_attempts`, not excluded as the claim states. -/
theorem C5_counterexample :
    _cleanup cfg0 "k" (sec 300) [("k", [(TS.dt 0, 2)])] = .ok [("k", [(TS.dt 0, 2)])] ∧
    _count_recent_attempts cfg0 "k" (sec 300) [("k", [(TS.dt 0, 2)])] = .ok 2 ∧
    (2 : Int) ≠ 0 :=
  ⟨rfl, rfl, by decide⟩

/-- C5 (amended): a stored bucket whose timestamp is exactly
`window_seconds` old (`timestamp = now - window_seconds`) is RETAINED by
`_cleanup` and INCLUDED in `_count_recent_attempts`: both comparisons use
the inclusive retained condition `timestamp >= now - window_seconds`
(which the spec itself states), so only strictly older buckets are
excluded. -/
theorem C5_boundary_retained (cfg : RLConfig) (k : String) (now c : Int) :
    _cleanup cfg k now [(k, [(TS.dt (now - usPerSec * cfg.window_seconds), c)])]
      = .ok [(k, [(TS.dt (now - usPerSec * cfg.window_seconds), c)])] ∧
    _count_recent_attempts cfg k now
        [(k, [(TS.dt (now - usPerSec * cfg.window_seconds), c)])]
      = .ok c := by
  constructor
  · simp [_cleanup, lookupD, cleanupInner, Except.map, insertD]
  · simp [_count_recent_attempts, lookupD, countInner, Except.map]

/-- C6: a key whose `blocked_until` entry lies in the future is reported
rate-limited with exactly that stored time, regardless of the contents
of its attempts dictionary, and the whole state (both maps) is returned
unchanged. -/
theorem C6_active_block_authoritative (cfg : RLConfig) (k : String) (now : Int)
    (s : RLState) (bu : Int)
    (hbu : lookupD s.blocked_until k = some bu) (hfut : now < bu) :
    is_rate_limited cfg k now s = .ok ((true, some bu), s) :=
  is_rate_limited_blocked cfg k now s bu hbu hfut

/-- C6 witness: an actively blocked key whose attempts dictionary holds
arbitrary garbage (an unparseable string entry and a stale bucket) is
still reported blocked with the stored expiry, state untouched. -/
theorem C6_witness :
    is_rate_limited cfg0 "k" (sec 5)
        ⟨[("k", [(TS.str "inf", 7), (TS.dt (-5), 0)])], [("k", sec 100)]⟩
      = .ok ((true, some (sec 100)),
          ⟨[("k", [(TS.str "inf", 7), (TS.dt (-5), 0)])], [("k", sec 100)]⟩) :=
  C6_active_block_authoritative cfg0 "k" (sec 5)
    ⟨[("k", [(TS.str "inf", 7), (TS.dt (-5), 0)])], [("k", sec 100)]⟩ (sec 100)
    (by decide) (by decide)

/-- C7: the string timestamp `"inf"` cannot be interpreted as a valid
timestamp, yet it is NOT handled gracefully: `float("inf")` succeeds and
`int(inf)` raises `OverflowError`, which `except (ValueError, TypeError)`
does not catch, so `_cleanup` and `_count_recent_attempts` — and with
them `is_rate_limited` and `record_attempt` — propagate an uncaught
exception instead of counting the entry as recent.  By contrast a string
that fails with `ValueError` (here `"not_a_ts"`) is kept by cleanup and
counted as recent, as the claim describes. -/
theorem C7_overflow_string_raises :
    pyIntFloat "inf" = PyConv.overflowError ∧
    _cleanup cfg0 "k" (sec 1000) [("k", [(TS.str "inf", 1)])] = .error () ∧
    _count_recent_attempts cfg0 "k" (sec 1000) [("k", [(TS.str "inf", 1)])] = .error () ∧
    is_rate_limited cfg0 "k" (sec 1000) ⟨[("k", [(TS.str "inf", 1)])], []⟩ = .error () ∧
    record_attempt cfg0 "k" (sec 1000) ⟨[("k", [(TS.str "inf", 1)])], []⟩ = .error () ∧
    _cleanup cfg0 "k" (sec 1000) [("k", [(TS.str "not_a_ts", 1)])]
      = .ok [("k", [(TS.str "not_a_ts", 1)])] ∧
    _count_recent_attempts cfg0 "k" (sec 1000) [("k", [(TS.str "not_a_ts", 1)])] = .ok 1 :=
  ⟨rfl, rfl, rfl, rfl, rfl, rfl, rfl⟩

/-- C7 supporting lemma: every entry whose string timestamp fails
conversion with a caught `ValueError`/`TypeError` is kept by the cleanup
loop — the list it produces contains the entry whenever no other entry
raises. -/
theorem cleanupInner_keeps_valueError (cutoff : Int) (inner : List (TS × Int))
    (s : String) (c : Int) (hmem : (TS.str s, c) ∈ inner)
    (hs : pyIntFloat s = PyConv.valueError)
    (hov : hasOverflow inner = false) :
    ∃ kept, cleanupInner cutoff inner = .ok kept ∧ (TS.str s, c) ∈ kept := by
  refine ⟨inner.filter (keepB cutoff), cleanupInner_eq_filter hov, ?_⟩
  rw [List.mem_filter]
  exact ⟨hmem, by simp [keepB, hs]⟩

/-- C8: `reset(key)` removes the key from both dictionaries; on a key
with no history it is the identity (a no-op, never an error); and it is
idempotent — two consecutive calls leave the same state as one. -/
theorem C8_reset_removes_noop_idempotent (s : RLState) (k : String) :
    lookupD (reset k s).attempts k = none ∧
    lookupD (reset k s).blocked_until k = none ∧
    (lookupD s.attempts k = none → lookupD s.blocked_until k = none → reset k s = s) ∧
    reset k (reset k s) = reset k s := by
  refine ⟨lookupD_eraseD_self _ _, lookupD_eraseD_self _ _, ?_, ?_⟩
  · intro h1 h2
    simp [reset, eraseD_of_lookupD_none _ _ h1, eraseD_of_lookupD_none _ _ h2]
  · simp [reset, eraseD_idem]

/-- C8 witness: a state holding a different key `"a"`: resetting the
absent key `"k"` is a no-op, removal and idempotence hold. -/
theorem C8_witness :
    lookupD (reset "k" ⟨[("a", [(TS.dt 0, 1)])], [("a", 5)]⟩).attempts "k" = none ∧
    lookupD (reset "k" ⟨[("a", [(TS.dt 0, 1)])], [("a", 5)]⟩).blocked_until "k" = none ∧
    reset "k" ⟨[("a", [(TS.dt 0, 1)])], [("a", 5)]⟩ = ⟨[("a", [(TS.dt 0, 1)])], [("a", 5)]⟩ ∧
    reset "k" (reset "k" ⟨[("a", [(TS.dt 0, 1)])], [("a", 5)]⟩)
      = reset "k" ⟨[("a", [(TS.dt 0, 1)])], [("a", 5)]⟩ :=
  ⟨(C8_reset_removes_noop_idempotent ⟨[("a", [(TS.dt 0, 1)])], [("a", 5)]⟩ "k").1,
   (C8_reset_removes_noop_idempotent ⟨[("a", [(TS.dt 0, 1)])], [("a", 5)]⟩ "k").2.1,
   (C8_reset_removes_noop_idempotent ⟨[("a", [(TS.dt 0, 1)])], [("a", 5)]⟩ "k").2.2.1
     (by decide) (by decide),
   (C8_reset_removes_noop_idempotent ⟨[("a", [(TS.dt 0, 1)])], [("a", 5)]⟩ "k").2.2.2⟩

/-- Lock discipline of the three public operations, transcribed
statement group by statement group from the `with self._lock` structure
of the source file: each entry pairs a statement group of the method
body with whether it executes inside the lock.  In `is_rate_limited`
the `with self._lock:` block (source lines 56–72) covers only the
blocked-key check/expiry clear and the no-attempts early return; the
`self._cleanup(...)` call (line 75), the `self._count_recent_attempts`
call (line 78) and the threshold check that installs
`self._blocked_until[key]` (lines 81–87) sit at the `with` statement's
own indentation level, i.e. they run after the lock has been
released. -/
def is_rate_limited_lock_profile : List (String × Bool) :=
  [("blocked_check_and_expiry_clear", true),
   ("no_attempts_early_return", true),
   ("cleanup_call", false),
   ("count_recent_attempts_call", false),
   ("threshold_check_and_block_install", false)]

/-- Lock discipline of `record_attempt`: its whole body (lines 100–122)
is inside `with self._lock`. -/
def record_attempt_lock_profile : List (String × Bool) :=
  [("ensure_key_dict", true), ("cleanup_call", true), ("reinit_key_dict", true),
   ("record_bucket_increment", true), ("threshold_check_and_block_install", true)]

/-- Lock discipline of `reset`: its whole body is inside
`with self._lock`. -/
def reset_lock_profile : List (String × Bool) :=
  [("delete_attempts_entry", true), ("delete_blocked_entry", true)]

/-- C9: `record_attempt` and `reset` hold the limiter's lock for their
whole bodies, but `is_rate_limited` does NOT — its cleanup, counting and
block installation run outside the `with self._lock` block, so the
claimed "lock held for the entire duration of every public operation"
fails for `is_rate_limited`. -/
theorem C9_lock_not_held_throughout :
    record_attempt_lock_profile.all (fun p => p.2) = true ∧
    reset_lock_profile.all (fun p => p.2) = true ∧
    is_rate_limited_lock_profile.all (fun p => p.2) = false :=
  ⟨rfl, rfl, rfl⟩

/-- C10: on a key that has a `blocked_until` entry (active or expired),
`record_attempt` proceeds exactly as on any other key: it never reads or
removes the entry, increments the minute bucket of `now` on top of the
window-cleaned history (sum grows by exactly 1), and — whenever the new
bucket sum reaches `max_attempts` — OVERWRITES `blocked_until[key]` with
`now + block_seconds` (extending an active block); otherwise the stored
entry survives untouched. -/
theorem C10_record_attempt_ignores_block (cfg : RLConfig) (k : String) (now : Int)
    (s : RLState) (bu : Int) (inner : List (TS × Int))
    (hbu : lookupD s.blocked_until k = some bu)
    (ha : lookupD s.attempts k = some inner)
    (hdt : ∀ p ∈ inner, ∃ b, p.1 = TS.dt b) :
    ∃ s' : RLState,
      record_attempt cfg k now s =
        .ok (decide (cfg.max_attempts ≤ sumVals (bumpBucket
            (inner.filter (keepB (now - usPerSec * cfg.window_seconds)))
            (minuteFloor now))), s') ∧
      lookupD s'.attempts k = some (bumpBucket
          (inner.filter (keepB (now - usPerSec * cfg.window_seconds))) (minuteFloor now)) ∧
      sumVals (bumpBucket (inner.filter (keepB (now - usPerSec * cfg.window_seconds)))
          (minuteFloor now))
        = sumVals (inner.filter (keepB (now - usPerSec * cfg.window_seconds))) + 1 ∧
      lookupD s'.blocked_until k =
        (if cfg.max_attempts ≤ sumVals (bumpBucket
            (inner.filter (keepB (now - usPerSec * cfg.window_seconds))) (minuteFloor now))
          then some (now + usPerSec * cfg.block_seconds) else some bu) := by
  have hov : hasOverflow inner = false := hasOverflow_eq_false_of_dt hdt
  have hC : cleanupInner (now - usPerSec * cfg.window_seconds)
      ((lookupD s.attempts k).getD [])
      = .ok (inner.filter (keepB (now - usPerSec * cfg.window_seconds))) := by
    rw [ha]
    simpa using cleanupInner_eq_filter hov
  obtain ⟨s', h1, h2, h3⟩ := record_attempt_spec cfg k now s _ hC
  refine ⟨s', h1, h2, sumVals_bumpBucket _ _, ?_⟩
  rw [h3, hbu]

/-- C10 witness: a key with an active block until 500s and two in-window
bucketed attempts; `record_attempt` at 10s under `max_attempts = 3`
pushes the sum to 3 and overwrites the block with `10s + 3600s`,
extending it. -/
theorem C10_witness :
    ∃ s' : RLState,
      record_attempt cfg3 "k" (sec 10) ⟨[("k", [(TS.dt 0, 2)])], [("k", sec 500)]⟩ =
        .ok (decide (cfg3.max_attempts ≤ sumVals (bumpBucket
            (([(TS.dt 0, 2)] : List (TS × Int)).filter
              (keepB (sec 10 - usPerSec * cfg3.window_seconds)))
            (minuteFloor (sec 10)))), s') ∧
      lookupD s'.attempts "k" = some (bumpBucket
          (([(TS.dt 0, 2)] : List (TS × Int)).filter
            (keepB (sec 10 - usPerSec * cfg3.window_seconds))) (minuteFloor (sec 10))) ∧
      sumVals (bumpBucket (([(TS.dt 0, 2)] : List (TS × Int)).filter
            (keepB (sec 10 - usPerSec * cfg3.window_seconds))) (minuteFloor (sec 10)))
        = sumVals (([(TS.dt 0, 2)] : List (TS × Int)).filter
            (keepB (sec 10 - usPerSec * cfg3.window_seconds))) + 1 ∧
      lookupD s'.blocked_until "k" =
        (if cfg3.max_attempts ≤ sumVals (bumpBucket
            (([(TS.dt 0, 2)] : List (TS × Int)).filter
              (keepB (sec 10 - usPerSec * cfg3.window_seconds))) (minuteFloor (sec 10)))
          then some (sec 10 + usPerSec * cfg3.block_seconds) else some (sec 500)) :=
  C10_record_attempt_ignores_block cfg3 "k" (sec 10)
    ⟨[("k", [(TS.dt 0, 2)])], [("k", sec 500)]⟩ (sec 500) [(TS.dt 0, 2)]
    (by decide) (by decide)
    (by
      intro p hp
      rcases List.mem_singleton.mp hp with rfl
      exact ⟨0, rfl⟩)
